import Mathlib

/-!
Verification development for the shar3 repository: a shallow embedding of the
Jackal Vault reference-resolution and retrieval pipeline
(src/lib/jackalVault.ts, src/lib/jackal-utils.ts, src/app/raw/route.ts and the
analyzer script), together with proofs settling the frozen claims about it.

Modelling conventions:
- JS byte buffers are `List Nat` (each entry a byte value).
- JS strings are Lean `String`; JS `split`, `toLowerCase`, truthiness checks and
  the concrete regular-expression tests used by the source are modelled by
  explicit executable functions defined below.
- Functions that can `throw` return `Except String α` carrying the thrown
  message.
- Network and platform seams (`fetch`, `postAbciQuery`, WHATWG `URL`) are
  modelled as explicit oracle parameters or small executable models; this is
  noted at each definition.
-/

namespace Shar3

/-! ## Basic character and string utilities -/

/-- Lowercase hex digit character for a nibble, as produced by Node's
`Buffer.prototype.toString('hex')` and `Hash.digest('hex')`. -/
def hexDigitChar (n : Nat) : Char :=
  if n < 10 then Char.ofNat (48 + n) else Char.ofNat (87 + n)

/-- Character class of the case-insensitive regular expression `[0-9a-f]`. -/
def isHexChar (c : Char) : Bool :=
  (decide ('0' ≤ c) && decide (c ≤ '9')) ||
  (decide ('a' ≤ c) && decide (c ≤ 'f')) ||
  (decide ('A' ≤ c) && decide (c ≤ 'F'))

/-- Test of the regular expression `/^[0-9a-f]{64}$/i`. -/
def isHex64 (s : String) : Bool :=
  s.length == 64 && s.data.all isHexChar

/-- Test of the regular expression `/^[0-9a-f]+$/i`. -/
def isHexNonempty (s : String) : Bool :=
  s.length != 0 && s.data.all isHexChar

/-- Two lowercase hex characters for one byte, as in Node's hex rendering. -/
def byteHexChars (b : Nat) : List Char :=
  [hexDigitChar (b / 16 % 16), hexDigitChar (b % 16)]

/-- Lowercase hex rendering of a byte list, modelling
`Buffer.prototype.toString('hex')`. -/
def bytesToHex (l : List Nat) : String :=
  ⟨l.flatMap byteHexChars⟩

/-- Model of the JS `String.prototype.split(sep)` for a single-character
separator, on character lists. `split` never returns an empty list. -/
def jsSplitChar (sep : Char) : List Char → List (List Char)
  | [] => [[]]
  | c :: rest =>
    let r := jsSplitChar sep rest
    if c = sep then [] :: r
    else
      match r with
      | h :: t => (c :: h) :: t
      | [] => [[c]]

/-- Model of JS `String.prototype.split(sep)` on strings. -/
def jsSplit (sep : Char) (s : String) : List String :=
  (jsSplitChar sep s.data).map String.mk

/-- Whether the second list occurs at the head of the first. -/
def startsWithL : List Char → List Char → Bool
  | _, [] => true
  | [], _ :: _ => false
  | a :: as, b :: bs => a == b && startsWithL as bs

/-- Whether `pat` occurs as a contiguous run inside `s`; models the JS
`String.prototype.includes`. -/
def containsL (s pat : List Char) : Bool :=
  match s with
  | [] => pat.isEmpty
  | _ :: rest => startsWithL s pat || containsL rest pat

/-- Model of JS `String.prototype.includes`. -/
def strIncludes (s pat : String) : Bool :=
  containsL s.data pat.data

/-- Model of JS `String.prototype.toLowerCase` for the ASCII range used by the
source (filename extensions and the fixed MIME table are ASCII). -/
def jsToLower (s : String) : String :=
  ⟨s.data.map Char.toLower⟩

/-- Whether `suf` is a suffix of `s`. -/
def strEndsWith (s suf : String) : Bool :=
  startsWithL s.data.reverse suf.data.reverse

/-! ## UTF-8 encoding (model of `Buffer.from(s, 'utf8')`) -/

/-- UTF-8 byte sequence of one code point. -/
def utf8EncodeChar (c : Char) : List Nat :=
  let n := c.toNat
  if n < 128 then [n]
  else if n < 2048 then [192 + n / 64, 128 + n % 64]
  else if n < 65536 then [224 + n / 4096, 128 + n / 64 % 64, 128 + n % 64]
  else [240 + n / 262144, 128 + n / 4096 % 64, 128 + n / 64 % 64, 128 + n % 64]

/-- UTF-8 bytes of a string, modelling `Buffer.from(s, 'utf8')`. -/
def utf8Encode (s : String) : List Nat :=
  s.data.flatMap utf8EncodeChar

/-- Decode a byte slice as text for the purpose of the hex test in
`decodeFindFileValue`. Under UTF-8, a byte at or above 0x80 can only decode to
a non-ASCII code point or a replacement character, neither of which matches
the character class `[0-9a-f]` (case-insensitive), so the hex test of the
source fails on any slice holding such a byte; the model therefore decodes
only all-ASCII slices and returns `none` otherwise. -/
def asciiDecode (l : List Nat) : Option String :=
  if l.all (· < 128) then some ⟨l.map Char.ofNat⟩ else none

/-! ## Base64 decoding (model of `Buffer.from(s, 'base64')`) -/

/-- Value of one base64 alphabet character; `none` for characters outside the
alphabet, which Node skips. -/
def b64Val (c : Char) : Option Nat :=
  if 'A' ≤ c ∧ c ≤ 'Z' then some (c.toNat - 65)
  else if 'a' ≤ c ∧ c ≤ 'z' then some (c.toNat - 97 + 26)
  else if '0' ≤ c ∧ c ≤ '9' then some (c.toNat - 48 + 52)
  else if c = '+' then some 62
  else if c = '/' then some 63
  else none

/-- Group base64 sextets into bytes; a trailing group of two or three sextets
yields one or two bytes, a lone trailing sextet is dropped, as in Node. -/
def b64Chunks : List Nat → List Nat
  | a :: b :: c :: d :: rest =>
    (a * 4 + b / 16) :: (b % 16 * 16 + c / 4) :: (c % 4 * 64 + d) :: b64Chunks rest
  | [a, b, c] => [a * 4 + b / 16, b % 16 * 16 + c / 4]
  | [a, b] => [a * 4 + b / 16]
  | _ => []

/-- Model of `Buffer.from(s, 'base64')`: non-alphabet characters (including
padding) are skipped, then sextets are packed into bytes. -/
def base64Decode (s : String) : List Nat :=
  b64Chunks (s.data.filterMap b64Val)

/-! ## SHA-256 (model of Node `createHash('sha256')`) -/

/-- Big-endian byte rendering of a number on `k` bytes. -/
def toBytesBE : Nat → Nat → List Nat
  | 0, _ => []
  | k + 1, n => toBytesBE k (n / 256) ++ [n % 256]

/-- Addition modulo 2^32. -/
def add32 (a b : Nat) : Nat := (a + b) % 4294967296

/-- Right rotation of a 32-bit word. -/
def rotr32 (n x : Nat) : Nat :=
  ((x >>> n) ||| (x <<< (32 - n))) % 4294967296

def sSig0 (x : Nat) : Nat := (rotr32 7 x) ^^^ (rotr32 18 x) ^^^ (x >>> 3)

def sSig1 (x : Nat) : Nat := (rotr32 17 x) ^^^ (rotr32 19 x) ^^^ (x >>> 10)

def bSig0 (x : Nat) : Nat := (rotr32 2 x) ^^^ (rotr32 13 x) ^^^ (rotr32 22 x)

def bSig1 (x : Nat) : Nat := (rotr32 6 x) ^^^ (rotr32 11 x) ^^^ (rotr32 25 x)

def chFn (x y z : Nat) : Nat := (x &&& y) ^^^ ((x ^^^ 4294967295) &&& z)

def majFn (x y z : Nat) : Nat := (x &&& y) ^^^ (x &&& z) ^^^ (y &&& z)

/-- The 64 SHA-256 round constants, written in decimal. -/
def sha256K : List Nat :=
  [1116352408, 1899447441, 3049323471, 3921009573, 961987163,
   1508970993, 2453635748, 2870763221, 3624381080, 310598401,
   607225278, 1426881987, 1925078388, 2162078206, 2614888103,
   3248222580, 3835390401, 4022224774, 264347078, 604807628,
   770255983, 1249150122, 1555081692, 1996064986, 2554220882,
   2821834349, 2952996808, 3210313671, 3336571891, 3584528711,
   113926993, 338241895, 666307205, 773529912, 1294757372,
   1396182291, 1695183700, 1986661051, 2177026350, 2456956037,
   2730485921, 2820302411, 3259730800, 3345764771, 3516065817,
   3600352804, 4094571909, 275423344, 430227734, 506948616,
   659060556, 883997877, 958139571, 1322822218, 1537002063,
   1747873779, 1955562222, 2024104815, 2227730452, 2361852424,
   2428436474, 2756734187, 3204031479, 3329325298]

/-- SHA-256 padding: append 0x80, zeros to 56 mod 64, and the 64-bit
big-endian bit length. -/
def sha256Pad (msg : List Nat) : List Nat :=
  let len := msg.length
  let padZeros := (119 - len % 64) % 64
  msg ++ [128] ++ List.replicate padZeros 0 ++ toBytesBE 8 (len * 8)

/-- Split a byte list into 64-byte chunks; the first argument is fuel, set to
the list length by the caller (sufficient, since each step drops 64 bytes). -/
def splitChunks : Nat → List Nat → List (List Nat)
  | 0, _ => []
  | fuel + 1, l =>
    if l.isEmpty then [] else l.take 64 :: splitChunks fuel (l.drop 64)

/-- Pack bytes into big-endian 32-bit words. -/
def bytesToWords : List Nat → List Nat
  | a :: b :: c :: d :: rest => (((a * 256 + b) * 256 + c) * 256 + d) :: bytesToWords rest
  | _ => []

/-- Extend the 16-word message schedule by one word. -/
def scheduleStep (w : List Nat) : List Nat :=
  let n := w.length
  w ++ [add32 (add32 (sSig1 (w.getD (n - 2) 0)) (w.getD (n - 7) 0))
              (add32 (sSig0 (w.getD (n - 15) 0)) (w.getD (n - 16) 0))]

/-- Extend the message schedule `k` times. -/
def scheduleExtend : Nat → List Nat → List Nat
  | 0, w => w
  | k + 1, w => scheduleExtend k (scheduleStep w)

/-- SHA-256 working state. -/
structure Sha256State where
  a : Nat
  b : Nat
  c : Nat
  d : Nat
  e : Nat
  f : Nat
  g : Nat
  h : Nat
deriving DecidableEq, Repr

/-- SHA-256 initial hash value, written in decimal. -/
def sha256Init : Sha256State :=
  ⟨1779033703, 3144134277, 1013904242, 2773480762,
   1359893119, 2600822924, 528734635, 1541459225⟩

/-- One SHA-256 compression round, for round constant and schedule word. -/
def sha256Round (st : Sha256State) (kw : Nat × Nat) : Sha256State :=
  let t1 := add32 st.h (add32 (bSig1 st.e) (add32 (chFn st.e st.f st.g) (add32 kw.1 kw.2)))
  let t2 := add32 (bSig0 st.a) (majFn st.a st.b st.c)
  ⟨add32 t1 t2, st.a, st.b, st.c, add32 st.d t1, st.e, st.f, st.g⟩

/-- Process one 64-byte chunk. -/
def sha256Chunk (st : Sha256State) (chunk : List Nat) : Sha256State :=
  let w := scheduleExtend 48 (bytesToWords chunk)
  let r := (sha256K.zip w).foldl sha256Round st
  ⟨add32 st.a r.a, add32 st.b r.b, add32 st.c r.c, add32 st.d r.d,
   add32 st.e r.e, add32 st.f r.f, add32 st.g r.g, add32 st.h r.h⟩

/-- Big-endian bytes of one 32-bit word. -/
def wordBytes (w : Nat) : List Nat :=
  [w / 16777216 % 256, w / 65536 % 256, w / 256 % 256, w % 256]

/-- The 32-byte SHA-256 digest of a byte list. -/
def sha256 (msg : List Nat) : List Nat :=
  let padded := sha256Pad msg
  let st := (splitChunks padded.length padded).foldl sha256Chunk sha256Init
  wordBytes st.a ++ wordBytes st.b ++ wordBytes st.c ++ wordBytes st.d ++
  wordBytes st.e ++ wordBytes st.f ++ wordBytes st.g ++ wordBytes st.h

/-- Model of `createHash('sha256').update(s).digest('hex')`: the SHA-256
digest of the UTF-8 bytes of `s`, rendered as lowercase hex. -/
def sha256Hex (s : String) : String :=
  bytesToHex (sha256 (utf8Encode s))

example : sha256Hex "abc" =
    "ba7816bf8f01cfea414140de5dae2223b00361a396177a9cb410ff61f20015ad" := by
  decide

example : sha256Hex "" =
    "e3b0c44298fc1c149afbf4c8996fb92427ae41e4649b934ca495991b7852b855" := by
  decide

/-! ## Reference parsing (src/lib/jackalVault.ts `parseVaultUrl`) -/

/-- The parsed vault URL triple of src/lib/jackalVault.ts. -/
structure VaultUrlParts where
  vaultAddress : String
  fileId : String
  key : String
deriving DecidableEq, Repr

/-- The WHATWG `URL` fields the source reads: `url.pathname` and
`url.searchParams.get('k')` (absent parameter modelled as `none`, matching the
JS `null`). -/
structure UrlView where
  pathname : String
  kParam : Option String
deriving DecidableEq, Repr

/-- Body of src/lib/jackalVault.ts `parseVaultUrl` after `new URL`: split the
pathname on slashes, require at least four segments with literal second
segment `v`, read segments two and three and the `k` parameter, and reject
when any is empty or missing (JS falsiness). The thrown messages are wrapped
by the enclosing catch into the `Failed to parse vault URL:` message. -/
def parseVaultUrlCore (u : UrlView) : Except String VaultUrlParts :=
  if (jsSplit '/' u.pathname).length < 4 ∨ (jsSplit '/' u.pathname).get? 1 ≠ some "v" then
    .error "Failed to parse vault URL: Invalid vault URL format"
  else if ((jsSplit '/' u.pathname).get? 2).getD "" = "" ∨
      ((jsSplit '/' u.pathname).get? 3).getD "" = "" ∨ u.kParam.getD "" = "" then
    .error "Failed to parse vault URL: Missing required URL components"
  else
    .ok ⟨((jsSplit '/' u.pathname).get? 2).getD "",
         ((jsSplit '/' u.pathname).get? 3).getD "",
         u.kParam.getD ""⟩

/-- Split a character list at the first occurrence of `://`, yielding the part
before it and the part after it. -/
def splitSchemeSep : List Char → Option (List Char × List Char)
  | [] => none
  | c :: rest =>
    if startsWithL (c :: rest) [':', '/', '/'] then some ([], rest.drop 2)
    else
      match splitSchemeSep rest with
      | some (pre, post) => some (c :: pre, post)
      | none => none

/-- Model of the platform `new URL` constructor restricted to what the source
reads: it requires a `://` scheme separator, takes the pathname as the slash
onward up to the query, and reads the raw value of the first `k` query
parameter. Percent-decoding of query values (a WHATWG detail) is elided; the
URLs this system handles carry plain token values. Returns `none` where
`new URL` would throw. -/
def urlParse (s : String) : Option UrlView :=
  match splitSchemeSep s.data with
  | none => none
  | some (scheme, rest) =>
    if scheme.isEmpty then none
    else
      let path0 := rest.dropWhile (fun c => c ≠ '/' ∧ c ≠ '?')
      let pathname := path0.takeWhile (· ≠ '?')
      let query := (path0.dropWhile (· ≠ '?')).drop 1
      let pairs := (jsSplitChar '&' query).map (fun p =>
        (p.takeWhile (· ≠ '='), (p.dropWhile (· ≠ '=')).drop 1))
      let k := (pairs.find? (fun p => p.1 = "k".data)).map (fun p => String.mk p.2)
      some ⟨if pathname.isEmpty then "/" else ⟨pathname⟩, k⟩

/-- src/lib/jackalVault.ts `parseVaultUrl` on a full URL string: `new URL`
followed by the segment checks; a `new URL` failure is caught and wrapped
into the same `Failed to parse vault URL:` message. -/
def parseVaultUrl (vaultUrl : String) : Except String VaultUrlParts :=
  match urlParse vaultUrl with
  | none => .error "Failed to parse vault URL: Invalid URL"
  | some u => parseVaultUrlCore u

/-- The parsed triple of src/lib/jackal-utils.ts. -/
structure UtilsUrlParts where
  address : String
  ulid : String
  linkKey : String
deriving DecidableEq, Repr

/-- Body of src/lib/jackal-utils.ts `parseVaultUrl` after `new URL`: split the
pathname on slashes, drop empty segments (`filter(Boolean)`), read entries one
and two of the filtered list and the `k` parameter, and reject only when one
of the three is empty or missing. Note that this variant never checks the
literal `v` segment. -/
def parseVaultUrlUtilsCore (u : UrlView) : Except String UtilsUrlParts :=
  let parts := (jsSplit '/' u.pathname).filter (fun s => s ≠ "")
  let address := (parts.get? 1).getD ""
  let ulid := (parts.get? 2).getD ""
  let linkKey := u.kParam.getD ""
  if address = "" ∨ ulid = "" ∨ linkKey = "" then
    .error "Failed to parse vault URL: Invalid Vault URL: missing address, ulid, or k="
  else
    .ok ⟨address, ulid, linkKey⟩

/-! ## JSON values and hex-candidate extraction
(src/lib/jackalVault.ts `collectHexCandidates`, `decodeFindFileValue`) -/

/- JSON-like values as the source sees decoded RPC responses, as a mutual
inductive family (values, array item lists, object field lists). Strings and
the two container shapes are distinguished because the source dispatches on
`typeof val === 'string'`, `Array.isArray(val)` and `typeof val === 'object'`;
numbers, booleans and `null` (collapsed into `other`) are never collected and
never traversed (the recursion guard rejects `null` although its `typeof` is
`object`). -/
mutual

inductive JsonVal where
  | str (s : String)
  | other
  | arr (items : JsonItems)
  | obj (fields : JsonFields)

inductive JsonItems where
  | nil
  | cons (hd : JsonVal) (tl : JsonItems)

inductive JsonFields where
  | nil
  | cons (key : String) (val : JsonVal) (tl : JsonFields)

end

/-- Build an item list from a Lean list, for writing concrete values. -/
def JsonItems.ofList : List JsonVal → JsonItems
  | [] => .nil
  | v :: rest => .cons v (JsonItems.ofList rest)

/-- Build a field list from a Lean list, for writing concrete values. -/
def JsonFields.ofList : List (String × JsonVal) → JsonFields
  | [] => .nil
  | kv :: rest => .cons kv.1 kv.2 (JsonFields.ofList rest)

/-- Property lookup `v[key]` on an object value, `undefined` elsewhere. -/
def jgetF : JsonFields → String → Option JsonVal
  | .nil, _ => none
  | .cons k v tl, key => if k == key then some v else jgetF tl key

/-- Property lookup `v[key]`, modelling the optional chaining of the source. -/
def jget (v : JsonVal) (key : String) : Option JsonVal :=
  match v with
  | .obj fields => jgetF fields key
  | _ => none

/- src/lib/jackalVault.ts `collectHexCandidates`: walk the structure,
collecting `path = value` lines for every string property value matching
`/^[0-9a-f]{64}$/i`. `collectHexRoot` is the function applied to a recursion
root (its guard returns nothing for non-container values, and `Object.entries`
gives an array index-keyed entries); `collectHexProp` handles one `[key, val]`
entry of the loop: strings are tested, array values are walked element-wise
with the index appended to the path (so a hex string directly inside such an
array is not collected — the recursion guard drops it), object values
recurse. -/
mutual

def collectHexRoot : JsonVal → List String → List String
  | .str _, _ => []
  | .other, _ => []
  | .arr items, path => collectHexArrRoot items 0 path
  | .obj fields, path => collectHexObj fields path

def collectHexObj : JsonFields → List String → List String
  | .nil, _ => []
  | .cons k v tl, path => collectHexProp k v path ++ collectHexObj tl path

def collectHexArrRoot : JsonItems → Nat → List String → List String
  | .nil, _, _ => []
  | .cons v tl, i, path => collectHexProp (toString i) v path ++ collectHexArrRoot tl (i + 1) path

def collectHexProp : String → JsonVal → List String → List String
  | k, .str s, path =>
    if isHex64 s then [String.intercalate "." (path ++ [k]) ++ " = " ++ s] else []
  | _, .other, _ => []
  | k, .arr items, path => collectHexItems items (path ++ [k]) 0
  | k, .obj fields, path => collectHexObj fields (path ++ [k])

def collectHexItems : JsonItems → List String → Nat → List String
  | .nil, _, _ => []
  | .cons v tl, np, i => collectHexRoot v (np ++ [toString i]) ++ collectHexItems tl np (i + 1)

end

/-- Top-level `collectHexCandidates(response)` call of the source. -/
def collectHexCands (v : JsonVal) : List String :=
  collectHexRoot v []

/-- The entries of `decoded.potentialHexStrings`. -/
structure PotentialHexString where
  offset : Nat
  length : Nat
  value : String
deriving DecidableEq, Repr

/-- The entries of `decoded.possibleHashes`. -/
structure PossibleHash where
  offset : Nat
  hash : String
deriving DecidableEq, Repr

/-- The fields of the `decoded` object of `decodeFindFileValue` that the
pipeline reads (the remaining fields are log-only diagnostics). -/
structure DecodedFindFile where
  raw : List Nat
  potentialHexStrings : List PotentialHexString
  possibleHashes : List PossibleHash
deriving DecidableEq, Repr

/-- The `potentialStrings` loop of `decodeFindFileValue`: at every offset
`i < raw.length - 1`, read `len = raw[i]`; for `0 < len < 100` with the run in
bounds, decode the next `len` bytes as text and keep it when it matches
`/^[0-9a-f]+$/i` with length at least 32. -/
def potentialStringsOf (raw : List Nat) : List PotentialHexString :=
  (List.range (raw.length - 1)).flatMap (fun i =>
    let len := raw.getD i 0
    if 0 < len ∧ len < 100 ∧ i + 1 + len ≤ raw.length then
      match asciiDecode ((raw.drop (i + 1)).take len) with
      | some str => if isHexNonempty str ∧ 32 ≤ str.length then [⟨i, len, str⟩] else []
      | none => []
    else [])

/-- The `possibleHashes` loop of `decodeFindFileValue`: every 32-byte window
of the raw bytes, hex-rendered, kept when it matches `/^[0-9a-f]{64}$/i`
(which a 32-byte hex rendering always does — the source over-collects here). -/
def possibleHashesOf (raw : List Nat) : List PossibleHash :=
  (List.range (raw.length + 1 - 32)).flatMap (fun i =>
    let hash := bytesToHex ((raw.drop i).take 32)
    if isHex64 hash then [⟨i, hash⟩] else [])

/-- src/lib/jackalVault.ts `decodeFindFileValue`: read
`response?.result?.response?.value`, throw `FindFile response missing value`
when it is absent or falsy, base64-decode it, and assemble the decoded
analysis object. A non-string container in the value position would make
`Buffer.from` throw a TypeError (its message matters to no claim and is kept
short); `other` covers the JSON primitives, whose falsy members give the
missing-value throw, and is mapped to that error. -/
def decodeFindFileValue (response : JsonVal) : Except String DecodedFindFile :=
  match ((jget response "result").bind (fun r => jget r "response")).bind
      (fun r => jget r "value") with
  | some (.str s) =>
    if s = "" then .error "FindFile response missing value"
    else
      let raw := base64Decode s
      .ok ⟨raw, potentialStringsOf raw, possibleHashesOf raw⟩
  | some (.arr _) => .error "The first argument must be of type string"
  | some (.obj _) => .error "The first argument must be of type string"
  | _ => .error "FindFile response missing value"

/-! ## CID selection (src/lib/jackalVault.ts `fetchEncryptedChunks`,
steps 1–3 and the digest fallback) -/

/-- Strategy 1 of `fetchEncryptedChunks`: the first potential hex string whose
value has exactly 64 characters. -/
def strategy1 (phs : List PotentialHexString) : Option String :=
  (phs.find? (fun h => h.value.length == 64)).map (fun h => h.value)

/-- Leftmost match of the regular expression `/([0-9a-f]{64})/i`: the first
position holding 64 consecutive hex characters. -/
def firstHex64RunL : List Char → Option String
  | [] => none
  | c :: rest =>
    let w := (c :: rest).take 64
    if w.length == 64 && w.all isHexChar then some ⟨w⟩ else firstHex64RunL rest

/-- Leftmost 64-hex-character run of a string. -/
def firstHex64Run (s : String) : Option String :=
  firstHex64RunL s.data

/-- Strategy 3 of `fetchEncryptedChunks`: match the first structural-traversal
candidate line against `/([0-9a-f]{64})/i`. Only the first line is examined. -/
def strategy3 (cands : List String) : Option String :=
  match cands.head? with
  | some first => if first ≠ "" then firstHex64Run first else none
  | none => none

/-- The CID selection of `fetchEncryptedChunks`: strategy 1 (length-prefixed
hex strings from the byte scan), then strategy 2 (first raw 32-byte-window
hash), then strategy 3 (structural-traversal candidates), then the
`sha256(fileId)` hex digest as the final fallback. Exactly one candidate is
selected. -/
def chooseCid (phs : List PotentialHexString) (poss : List PossibleHash)
    (cands : List String) (fileId : String) : String :=
  match strategy1 phs with
  | some v => v
  | none =>
    match poss.head? with
    | some h => h.hash
    | none =>
      match strategy3 cands with
      | some v => v
      | none => sha256Hex fileId

/-- The CID selection followed by the `if (!cid) throw` guard of
`fetchEncryptedChunks` (the guard fires only on an empty selection, the JS
falsy string). -/
def resolveCid (decoded : DecodedFindFile) (cands : List String)
    (fileId : String) : Except String String :=
  let cid := chooseCid decoded.potentialHexStrings decoded.possibleHashes cands fileId
  if cid = "" then .error "Could not determine CID for file download" else .ok cid

/-! ## Candidate records of the analyzer script
(src/find-mainnet-endpoints.js, `extractHexCandidates` /
`extractBinaryCandidates` / `uniqueCandidates`) -/

/-- The `CidCandidate` records of the analyzer script. -/
structure CidCandidate where
  source : String
  path : String
  value : String
deriving DecidableEq, Repr

/-- The `uniqueCandidates` filter of the analyzer script:
`allCandidates.filter((candidate, index, self) => index === self.findIndex(c =>
c.value === candidate.value))`, keeping each value's first occurrence. -/
def uniqueCandidates (l : List CidCandidate) : List CidCandidate :=
  ((l.enum).filter (fun p => l.findIdx? (fun c => c.value == p.2.value) == some p.1)).map
    Prod.snd

/-! ## File metadata and MIME resolution
(src/lib/jackalVault.ts `fetchFileMetadata`, `getMimeType`) -/

/-- The `FileMetadata` object of src/lib/jackalVault.ts. Optional fields model
possibly-absent JS properties; the JS truthiness checks of the source treat an
empty string like an absent one, and the model spells that out at each use. -/
structure FileMetadata where
  mimeType : Option String
  filename : Option String
  size : Option Nat
  rawResponse : JsonVal

/-- src/lib/jackalVault.ts `getMimeType`: return `metadata.mimeType` when
truthy; otherwise take the last `.`-separated segment of the lowercased
filename and map it through the fixed extension table, defaulting to
`image/png`. -/
def getMimeType (metadata : FileMetadata) (filename : Option String) : String :=
  match metadata.mimeType with
  | some m =>
    if m ≠ "" then m
    else getMimeTypeFromFilename filename
  | none => getMimeTypeFromFilename filename
where
  /-- The extension fallback of `getMimeType` (the code after the metadata
  check). -/
  getMimeTypeFromFilename : Option String → String
  | some f =>
    if f ≠ "" then
      let ext := ((jsSplit '.' (jsToLower f)).getLast?).getD ""
      if ext = "jpg" ∨ ext = "jpeg" then "image/jpeg"
      else if ext = "png" then "image/png"
      else if ext = "gif" then "image/gif"
      else if ext = "webp" then "image/webp"
      else if ext = "svg" then "image/svg+xml"
      else "image/png"
    else "image/png"
  | none => "image/png"

/-- The RPC seam: `postAbciQuery(path, dataHex)` of src/lib/jackalRpc.ts is an
outbound network call returning the decoded `result` of the JSON-RPC envelope
or throwing (non-success HTTP status, envelope `error` field, or transport
failure); resolutions are verified for every behavior of this seam. -/
abbrev RpcOracle := String → String → Except String JsonVal

/-- Hex rendering of a number padded to at least two digits, modelling
`n.toString(16).padStart(2, '0')`. -/
def jsHexPad2 (n : Nat) : String :=
  let h : String := ⟨Nat.toDigits 16 n⟩
  if h.length < 2 then "0" ++ h else h

/-- The length-prefixed query payload `0a` + length + bytes built by
`fetchFileMetadata` and `getFindFileInfo` from the UTF-8 bytes of the file
id. -/
def buildQueryData (fileId : String) : String :=
  let bytes := utf8Encode fileId
  "0a" ++ jsHexPad2 bytes.length ++ bytesToHex bytes

/-- src/lib/jackalVault.ts `fetchFileMetadata`: query the filetree path, then
return the placeholder metadata object — `mimeType` is hard-coded to
`image/png`, `filename` to the file id, `size` to zero, with the raw response
attached; an RPC failure is wrapped into `Failed to fetch metadata:`. -/
def fetchFileMetadata (rpc : RpcOracle) (vaultAddress fileId key : String) :
    Except String FileMetadata :=
  match rpc "/canine_chain.filetree.Query/File" (buildQueryData fileId) with
  | .error e => .error ("Failed to fetch metadata: " ++ e)
  | .ok result => .ok ⟨some "image/png", some fileId, some 0, result⟩

/-! ## Resilient retrieval (src/lib/jackalVault.ts `fetchEncryptedChunks`) -/

/-- Outcome of one `fetch` of a download URL: either a response with a status,
body bytes (`res.arrayBuffer()`) and body text (`res.text()`, read on the
failure path), or a rejection with an error message. -/
inductive FetchOutcome where
  | response (status : Nat) (body : List Nat) (text : String)
  | exn (msg : String)
deriving DecidableEq, Repr

/-- The fetch seam: one GET per download URL. -/
abbrev FetchOracle := String → FetchOutcome

/-- The `DownloadAttempt` diagnostic records of the source. -/
structure DownloadAttempt where
  url : String
  status : Option Nat
  error : Option String
deriving DecidableEq, Repr

/-- The attempt record the per-host block pushes for an outcome: a rejection
records the message; a non-2xx response records the status and the body text
(or `status N` when the text is empty); a 2xx response records the status
only. `res.ok` is status 200–299. -/
def attemptOf (url : String) (o : FetchOutcome) : DownloadAttempt :=
  match o with
  | .exn m => ⟨url, none, some m⟩
  | .response st _ text =>
    if 200 ≤ st ∧ st < 300 then ⟨url, some st, none⟩
    else ⟨url, some st, some (if text ≠ "" then text else "status " ++ toString st)⟩

/-- The body returned when the response is 2xx (`res.ok`), else `none`. -/
def fetchBody? (o : FetchOutcome) : Option (List Nat) :=
  match o with
  | .response st body _ => if 200 ≤ st ∧ st < 300 then some body else none
  | .exn _ => none

def primaryStorageHost : String := "jkstorage4.squirrellogic.com"

def fallbackHosts : List String :=
  ["pod-04.jackalstorage.online",
   "pod-01.jackalstorage.online",
   "m4.jkldrive.com",
   "jackal-storage1.badgerbite.io",
   "jsn4.pegasusdev.xyz"]

/-- The providers in trial order: the primary host, then the fallback list.
The source unrolls the primary attempt textually before the fallback loop
with identical per-host logic. -/
def allHosts : List String := primaryStorageHost :: fallbackHosts

/-- The download URL `https://HOST/download/CID`. -/
def downloadUrl (host cid : String) : String :=
  "https://" ++ host ++ "/download/" ++ cid

/-- The download loop over the remaining hosts, carrying the accumulated
attempt log: stop and return the body on the first 2xx response, else append
the failure attempt and continue. -/
def providerLoopGo (fetchO : FetchOracle) (cid : String) :
    List String → List DownloadAttempt → List DownloadAttempt × Option (List Nat)
  | [], acc => (acc, none)
  | host :: rest, acc =>
    let url := downloadUrl host cid
    let o := fetchO url
    match fetchBody? o with
    | some data => (acc ++ [attemptOf url o], some data)
    | none => providerLoopGo fetchO cid rest (acc ++ [attemptOf url o])

/-- The full download loop of `fetchEncryptedChunks` over all hosts, returning
the attempt log and the body of the first success, if any. -/
def providerLoop (fetchO : FetchOracle) (cid : String) :
    List DownloadAttempt × Option (List Nat) :=
  providerLoopGo fetchO cid allHosts []

/-- JSON string escaping as performed by `JSON.stringify`. -/
def jsonEscapeChar (c : Char) : List Char :=
  if c = '"' then ['\\', '"']
  else if c = '\\' then ['\\', '\\']
  else if c = '\n' then ['\\', 'n']
  else if c = '\r' then ['\\', 'r']
  else if c = '\t' then ['\\', 't']
  else if c.toNat = 8 then ['\\', 'b']
  else if c.toNat = 12 then ['\\', 'f']
  else if c.toNat < 32 then '\\' :: 'u' :: '0' :: '0' :: byteHexChars c.toNat
  else [c]

/-- A JSON string literal for `s`. -/
def jsonStr (s : String) : String :=
  "\"" ++ String.mk (s.data.flatMap jsonEscapeChar) ++ "\""

/-- One attempt record as `JSON.stringify(attempts, null, 2)` prints it:
properties in insertion order (`url`, then `status` when present, then
`error` when present), four-space property indent inside a two-space indented
object. -/
def renderAttempt (a : DownloadAttempt) : String :=
  let fields :=
    [some ("    \"url\": " ++ jsonStr a.url),
     a.status.map (fun st => "    \"status\": " ++ toString st),
     a.error.map (fun e => "    \"error\": " ++ jsonStr e)]
  "  \x7b\n" ++ String.intercalate ",\n" (fields.filterMap id) ++ "\n  \x7d"

/-- Model of `JSON.stringify(attempts, null, 2)` for the attempt list. -/
def renderAttempts (l : List DownloadAttempt) : String :=
  if l.isEmpty then "[]"
  else "[\n" ++ String.intercalate ",\n" (l.map renderAttempt) ++ "\n]"

/-- The retrieval tail of `fetchEncryptedChunks`: the first successful body,
or the exhaustion throw whose message embeds the full rendered attempt log. -/
def retrieveOrFail (fetchO : FetchOracle) (cid : String) : Except String (List Nat) :=
  match providerLoop fetchO cid with
  | (_, some data) => .ok data
  | (atts, none) =>
    .error ("Failed to download from any storage provider. Attempts: " ++ renderAttempts atts)

/-- The value `getFindFileInfo` resolves: the decoded FindFile analysis and
the structural-traversal candidate lines. -/
structure FindFileInfo where
  decoded : DecodedFindFile
  candidates : List String

/-- src/lib/jackalVault.ts `getFindFileInfo`: query the FindFile path with the
length-prefixed payload, decode the value, collect structural hex candidates;
any failure is wrapped into `Failed to query FindFile:`. -/
def getFindFileInfo (rpc : RpcOracle) (fileId : String) : Except String FindFileInfo :=
  match rpc "/canine_chain.storage.Query/FindFile" (buildQueryData fileId) with
  | .error e => .error ("Failed to query FindFile: " ++ e)
  | .ok response =>
    match decodeFindFileValue response with
    | .error e => .error ("Failed to query FindFile: " ++ e)
    | .ok decoded => .ok ⟨decoded, collectHexCands response⟩

/-- src/lib/jackalVault.ts `fetchEncryptedChunks`: resolve the FindFile info,
select the CID, download with failover; every failure is wrapped into
`Failed to fetch encrypted chunks:`. The metadata argument is only logged by
the source. -/
def fetchEncryptedChunks (rpc : RpcOracle) (fetchO : FetchOracle)
    (metadata : FileMetadata) (fileId : String) : Except String (List Nat) :=
  match getFindFileInfo rpc fileId with
  | .error e => .error ("Failed to fetch encrypted chunks: " ++ e)
  | .ok info =>
    match resolveCid info.decoded info.candidates fileId with
    | .error e => .error ("Failed to fetch encrypted chunks: " ++ e)
    | .ok cid =>
      match retrieveOrFail fetchO cid with
      | .ok data => .ok data
      | .error e => .error ("Failed to fetch encrypted chunks: " ++ e)

/-! ## Decryption seam and pipeline
(src/lib/jackalVault.ts `decryptFileData`, `fetchAndDecryptVaultFile`) -/

/-- src/lib/jackalVault.ts `decryptFileData`: the body is an explicit
placeholder — it logs
`[PLACEHOLDER] Returning encrypted data unchanged - decryption not yet
implemented` and returns the encrypted input unchanged; no code path throws,
so the catch branch is dead. -/
def decryptFileData (encryptedData : List Nat) (key : String)
    (metadata : FileMetadata) : Except String (List Nat) :=
  .ok encryptedData

/-- The terminal `JackalDecryptedFile` artifact. -/
structure JackalDecryptedFile where
  mimeType : String
  data : List Nat
deriving DecidableEq, Repr

/-- src/lib/jackalVault.ts `fetchAndDecryptVaultFile`: parse, fetch metadata,
fetch ciphertext, decrypt, resolve the MIME type; the catch logs and rethrows
the same error. -/
def fetchAndDecryptVaultFile (rpc : RpcOracle) (fetchO : FetchOracle)
    (vaultUrl : String) : Except String JackalDecryptedFile :=
  match parseVaultUrl vaultUrl with
  | .error e => .error e
  | .ok parts =>
    match fetchFileMetadata rpc parts.vaultAddress parts.fileId parts.key with
    | .error e => .error e
    | .ok metadata =>
      match fetchEncryptedChunks rpc fetchO metadata parts.fileId with
      | .error e => .error e
      | .ok encryptedData =>
        match decryptFileData encryptedData parts.key metadata with
        | .error e => .error e
        | .ok decryptedData => .ok ⟨getMimeType metadata metadata.filename, decryptedData⟩

/-! ## HTTP boundary (src/app/raw/route.ts `GET`) -/

/-- Hex digit value for percent decoding. -/
def hexVal (c : Char) : Option Nat :=
  if '0' ≤ c ∧ c ≤ '9' then some (c.toNat - 48)
  else if 'a' ≤ c ∧ c ≤ 'f' then some (c.toNat - 97 + 10)
  else if 'A' ≤ c ∧ c ≤ 'F' then some (c.toNat - 65 + 10)
  else none

/-- Percent decoding for `decodeURIComponent`, modelled byte-wise: `%XY` is
replaced by the code point `16·X+Y` and a malformed escape is an error.
Multi-byte UTF-8 escape sequences (which `decodeURIComponent` would combine)
are beyond the inputs exercised here, which are percent-free, and decoding is
the identity on those. -/
def percentDecodeL : List Char → Option (List Char)
  | [] => some []
  | '%' :: rest =>
    match rest with
    | a :: b :: rest2 =>
      match hexVal a, hexVal b with
      | some x, some y => (percentDecodeL rest2).map (fun t => Char.ofNat (16 * x + y) :: t)
      | _, _ => none
    | _ => none
  | c :: rest => (percentDecodeL rest).map (fun t => c :: t)

/-- Model of the platform `decodeURIComponent`, throwing `URI malformed` on a
bad escape. -/
def decodeURIComponentM (s : String) : Except String String :=
  match percentDecodeL s.data with
  | some l => .ok ⟨l⟩
  | none => .error "URI malformed"

/-- A route response body: plain-text diagnostic or raw bytes. -/
inductive RouteBody where
  | text (s : String)
  | bytes (data : List Nat)
deriving DecidableEq, Repr

/-- A route response: status, body, `Content-Type` header. -/
structure RouteResponse where
  status : Nat
  body : RouteBody
  contentType : String
deriving DecidableEq, Repr

/-- The catch branch of the route: map the error message through the
substring checks to a status and plain-text diagnostic. -/
def routeErrorResponse (msg : String) : RouteResponse :=
  if strIncludes msg "not found" || strIncludes msg "404" then
    ⟨404, .text "File not found or cannot be decrypted", "text/plain"⟩
  else if strIncludes msg "timeout" || strIncludes msg "network" then
    ⟨502, .text "Upstream service unavailable", "text/plain"⟩
  else if strIncludes msg "decrypt" || strIncludes msg "key" then
    ⟨422, .text "Decryption failed - invalid key or corrupted file", "text/plain"⟩
  else
    ⟨500, .text "Internal server error during file processing", "text/plain"⟩

/-- src/app/raw/route.ts `GET`: validate the `u` parameter, decode it, check
the vault domain substring, run the pipeline, and on success stream the
decrypted bytes with status 200 and the resolved MIME type; exceptions go
through the catch taxonomy. -/
def rawRouteGET (uParam : Option String) (rpc : RpcOracle) (fetchO : FetchOracle) :
    RouteResponse :=
  match uParam with
  | none => ⟨400, .text "Missing vault URL parameter \"u\"", "text/plain"⟩
  | some encoded =>
    match decodeURIComponentM encoded with
    | .error e => routeErrorResponse e
    | .ok vaultUrl =>
      if !(strIncludes vaultUrl "vault.jackalprotocol.com") then
        ⟨400, .text "Invalid vault URL domain", "text/plain"⟩
      else
        match fetchAndDecryptVaultFile rpc fetchO vaultUrl with
        | .ok f => ⟨200, .bytes f.data, f.mimeType⟩
        | .error e => routeErrorResponse e

/-! ## Concrete fixtures used by witnesses and counterexamples -/

/-- A 64-character zero hex string (the hex of 32 zero bytes). -/
def zeros64 : String :=
  "0000000000000000000000000000000000000000000000000000000000000000"

/-- A 64-character hex string of the letter a. -/
def aa64 : String :=
  "aaaaaaaaaaaaaaaaaaaaaaaaaaaaaaaaaaaaaaaaaaaaaaaaaaaaaaaaaaaaaaaa"

/-- A 64-character hex string of the letter b. -/
def bb64 : String :=
  "bbbbbbbbbbbbbbbbbbbbbbbbbbbbbbbbbbbbbbbbbbbbbbbbbbbbbbbbbbbbbbbb"

/-- A FindFile response whose value decodes to 32 zero bytes. -/
def ffRespZeros : JsonVal :=
  .obj (JsonFields.ofList
    [("result", .obj (JsonFields.ofList
      [("response", .obj (JsonFields.ofList
        [("value", .str "AAAAAAAAAAAAAAAAAAAAAAAAAAAAAAAAAAAAAAAAAAA=")]))]))])

/-- A FindFile response whose value decodes to 33 zero bytes. -/
def ffRespZeros33 : JsonVal :=
  .obj (JsonFields.ofList
    [("result", .obj (JsonFields.ofList
      [("response", .obj (JsonFields.ofList
        [("value", .str "AAAAAAAAAAAAAAAAAAAAAAAAAAAAAAAAAAAAAAAAAAAA")]))]))])

/-- A filetree metadata response stub. -/
def metaResp0 : JsonVal := .obj (JsonFields.ofList [("meta", .other)])

/-- An RPC oracle answering the FindFile path with the 32-zero-byte value and
every other path with the metadata stub. -/
def rpc0 : RpcOracle := fun path _ =>
  if path = "/canine_chain.storage.Query/FindFile" then .ok ffRespZeros else .ok metaResp0

/-- A fetch oracle on which only the primary host serves the zero CID,
delivering the four ciphertext bytes `[202, 254, 186, 190]`. -/
def fetch1 : FetchOracle := fun url =>
  if url = downloadUrl primaryStorageHost zeros64 then .response 200 [202, 254, 186, 190] ""
  else .exn "connect ECONNREFUSED"

/-- A vault share URL fixture (percent-free, so URI decoding is the
identity). -/
def url0 : String := "https://vault.jackalprotocol.com/v/owner1/01K9YX?k=KEY1"

/-- The pipeline output on the fixtures above. -/
def file0 : JackalDecryptedFile := ⟨"image/png", [202, 254, 186, 190]⟩

/-- A fetch oracle on which every request rejects. -/
def fetchFail : FetchOracle := fun _ => .exn "connect ECONNREFUSED"

/-- A fetch oracle on which the first host rejects and the second host serves
the zero CID with one byte. -/
def fetchSecond : FetchOracle := fun url =>
  if url = downloadUrl "pod-04.jackalstorage.online" zeros64 then .response 200 [7] ""
  else .exn "connect ECONNREFUSED"

/-- The FindFile value bytes of the C3 scenario: a length byte 64 followed by
64 ASCII a characters, so the length-prefixed scan finds the 64-character
value `aa64`. -/
def rawC3 : List Nat := 64 :: List.replicate 64 97

/-- A FindFile response for the C3 scenario: its value decodes to `rawC3` and
its object tree carries a structural-traversal hex candidate `bb64` under the
key `cid`. -/
def ffRespC3 : JsonVal :=
  let value : JsonVal :=
    .str "QGFhYWFhYWFhYWFhYWFhYWFhYWFhYWFhYWFhYWFhYWFhYWFhYWFhYWFhYWFhYWFhYWFhYWFhYWFhYWFhYWFhYWE="
  let response : JsonVal := .obj (JsonFields.ofList [("value", value)])
  let result : JsonVal := .obj (JsonFields.ofList [("response", response)])
  .obj (JsonFields.ofList
    [("result", result),
     ("cid", .str "bbbbbbbbbbbbbbbbbbbbbbbbbbbbbbbbbbbbbbbbbbbbbbbbbbbbbbbbbbbbbbbb")])

/-- The fixed extension table of `getMimeType`, as extension/MIME pairs. -/
def extMap : List (String × String) :=
  [("jpg", "image/jpeg"), ("jpeg", "image/jpeg"), ("png", "image/png"),
   ("gif", "image/gif"), ("webp", "image/webp"), ("svg", "image/svg+xml")]

/-! ## Helper lemmas -/

theorem jsSplitChar_ne_nil (sep : Char) (l : List Char) : jsSplitChar sep l ≠ [] := by
  cases l with
  | nil => simp [jsSplitChar]
  | cons c rest =>
    simp only [jsSplitChar]
    split
    · simp
    · split <;> simp_all

theorem jsSplitChar_not_mem (sep : Char) (xs : List Char) (h : sep ∉ xs) :
    jsSplitChar sep xs = [xs] := by
  induction xs with
  | nil => rfl
  | cons c rest ih =>
    have hc : ¬ c = sep := by
      rintro rfl
      exact h (List.mem_cons_self _ _)
    have hr : sep ∉ rest := fun hm => h (List.mem_cons_of_mem _ hm)
    simp [jsSplitChar, hc, ih hr]

theorem jsSplitChar_append (sep : Char) (xs ys : List Char) (h : sep ∉ xs) :
    jsSplitChar sep (xs ++ sep :: ys) = xs :: jsSplitChar sep ys := by
  induction xs with
  | nil => simp [jsSplitChar]
  | cons c rest ih =>
    have hc : ¬ c = sep := by
      rintro rfl
      exact h (List.mem_cons_self _ _)
    have hr : sep ∉ rest := fun hm => h (List.mem_cons_of_mem _ hm)
    simp [jsSplitChar, hc, ih hr]

theorem jsSplitChar_two_le (sep : Char) (xs ys : List Char) :
    2 ≤ (jsSplitChar sep (xs ++ sep :: ys)).length := by
  induction xs with
  | nil =>
    have h1 : jsSplitChar sep ([] ++ sep :: ys) = [] :: jsSplitChar sep ys := by
      simp [jsSplitChar]
    rw [h1]
    have h2 := List.length_pos.2 (jsSplitChar_ne_nil sep ys)
    simp only [List.length_cons]
    omega
  | cons c rest ih =>
    rw [List.cons_append]
    cases hr : jsSplitChar sep (rest ++ sep :: ys) with
    | nil => exact absurd hr (jsSplitChar_ne_nil sep _)
    | cons h1 t =>
      by_cases hc : c = sep
      · have h2 : jsSplitChar sep (c :: (rest ++ sep :: ys)) = [] :: h1 :: t := by
          simp [jsSplitChar, hc, hr]
        rw [h2]
        simp only [List.length_cons]
        omega
      · have h2 : jsSplitChar sep (c :: (rest ++ sep :: ys)) = (c :: h1) :: t := by
          simp [jsSplitChar, hc, hr]
        rw [h2]
        rw [hr] at ih
        simpa using ih

theorem jsSplitChar_getLast (sep : Char) (pre ys : List Char) (h : sep ∉ ys) :
    (jsSplitChar sep (pre ++ sep :: ys)).getLast? = some ys := by
  induction pre with
  | nil =>
    have h1 : jsSplitChar sep ([] ++ sep :: ys) = [] :: jsSplitChar sep ys := by
      simp [jsSplitChar]
    rw [h1, jsSplitChar_not_mem sep ys h]
    rfl
  | cons c rest ih =>
    rw [List.cons_append]
    cases hr : jsSplitChar sep (rest ++ sep :: ys) with
    | nil => exact absurd hr (jsSplitChar_ne_nil sep _)
    | cons h1 t =>
      rw [hr] at ih
      by_cases hc : c = sep
      · have h2 : jsSplitChar sep (c :: (rest ++ sep :: ys)) = [] :: h1 :: t := by
          simp [jsSplitChar, hc, hr]
        rw [h2, List.getLast?_cons_cons]
        exact ih
      · have h2 : jsSplitChar sep (c :: (rest ++ sep :: ys)) = (c :: h1) :: t := by
          simp [jsSplitChar, hc, hr]
        rw [h2]
        have hlen := jsSplitChar_two_le sep rest ys
        rw [hr] at hlen
        cases t with
        | nil => simp at hlen
        | cons t1 ts =>
          rw [List.getLast?_cons_cons]
          rw [List.getLast?_cons_cons] at ih
          exact ih

theorem startsWithL_iff (a b : List Char) : startsWithL a b = true ↔ ∃ c, a = b ++ c := by
  induction b generalizing a with
  | nil =>
    simp [startsWithL]
  | cons x xs ih =>
    cases a with
    | nil => simp [startsWithL]
    | cons y ys =>
      simp only [startsWithL, Bool.and_eq_true, beq_iff_eq, ih, List.cons_append,
        List.cons.injEq]
      constructor
      · rintro ⟨rfl, c, rfl⟩
        exact ⟨c, rfl, rfl⟩
      · rintro ⟨c, rfl, rfl⟩
        exact ⟨rfl, c, rfl⟩

theorem strEndsWith_iff (s suf : String) :
    strEndsWith s suf = true ↔ ∃ pre, s.data = pre ++ suf.data := by
  unfold strEndsWith
  rw [startsWithL_iff]
  constructor
  · rintro ⟨c, hc⟩
    refine ⟨c.reverse, ?_⟩
    have := congrArg List.reverse hc
    simpa using this
  · rintro ⟨pre, hp⟩
    exact ⟨pre.reverse, by simp [hp]⟩

theorem flatMap_byteHexChars_length (l : List Nat) :
    (l.flatMap byteHexChars).length = 2 * l.length := by
  induction l with
  | nil => rfl
  | cons b rest ih =>
    simp only [List.flatMap_cons, List.length_append, ih, byteHexChars, List.length_cons,
      List.length_nil, List.length_cons]
    omega

theorem bytesToHex_length (l : List Nat) : (bytesToHex l).length = 2 * l.length :=
  flatMap_byteHexChars_length l

theorem sha256_length (msg : List Nat) : (sha256 msg).length = 32 := by
  simp [sha256, wordBytes]

theorem sha256Hex_length (s : String) : (sha256Hex s).length = 64 := by
  unfold sha256Hex
  rw [bytesToHex_length, sha256_length]

theorem sha256Hex_ne_empty (s : String) : sha256Hex s ≠ "" := by
  intro h
  have hl := sha256Hex_length s
  rw [h] at hl
  simp at hl

theorem isHex64_length (s : String) (h : isHex64 s = true) : s.length = 64 := by
  unfold isHex64 at h
  simp only [Bool.and_eq_true, beq_iff_eq] at h
  exact h.1

theorem possibleHashesOf_hash_hex (raw : List Nat) (e : PossibleHash)
    (h : e ∈ possibleHashesOf raw) : isHex64 e.hash = true := by
  unfold possibleHashesOf at h
  rw [List.mem_flatMap] at h
  obtain ⟨i, _, he⟩ := h
  by_cases hh : isHex64 (bytesToHex ((raw.drop i).take 32)) = true
  · rw [if_pos hh] at he
    simp only [List.mem_singleton] at he
    subst he
    exact hh
  · rw [if_neg hh] at he
    simp at he

theorem firstHex64RunL_length (l : List Char) (v : String)
    (h : firstHex64RunL l = some v) : v.length = 64 := by
  induction l with
  | nil => simp [firstHex64RunL] at h
  | cons c rest ih =>
    rw [firstHex64RunL] at h
    split at h
    · next hcond =>
      simp only [Option.some.injEq] at h
      subst h
      simp only [Bool.and_eq_true, beq_iff_eq] at hcond
      have : (String.mk ((c :: rest).take 64)).length = ((c :: rest).take 64).length := rfl
      rw [this, hcond.1]
    · exact ih h

theorem strategy1_value (phs : List PotentialHexString) (v : String)
    (h : strategy1 phs = some v) : v.length = 64 := by
  unfold strategy1 at h
  simp only [Option.map_eq_some'] at h
  obtain ⟨e, he, rfl⟩ := h
  have := List.find?_some he
  simpa using this

theorem strategy3_value (cands : List String) (v : String)
    (h : strategy3 cands = some v) : v.length = 64 := by
  cases cands with
  | nil => simp [strategy3] at h
  | cons first rest =>
    have h2 : strategy3 (first :: rest) = if first ≠ "" then firstHex64Run first else none := rfl
    rw [h2] at h
    by_cases hf : first ≠ ""
    · rw [if_pos hf] at h
      exact firstHex64RunL_length first.data v h
    · rw [if_neg hf] at h
      exact absurd h (by simp)

theorem fetchFileMetadata_fields (rpc : RpcOracle) (a b c : String) (md : FileMetadata)
    (h : fetchFileMetadata rpc a b c = .ok md) :
    md.mimeType = some "image/png" ∧ md.filename = some b := by
  unfold fetchFileMetadata at h
  cases hr : rpc "/canine_chain.filetree.Query/File" (buildQueryData b) with
  | error e => rw [hr] at h; exact absurd h (by simp)
  | ok result =>
    rw [hr] at h
    simp only [Except.ok.injEq] at h
    subst h
    exact ⟨rfl, rfl⟩

theorem getMimeType_of_png (md : FileMetadata) (fn : Option String)
    (h : md.mimeType = some "image/png") : getMimeType md fn = "image/png" := by
  unfold getMimeType
  rw [h]
  simp

theorem providerLoopGo_all_fail (fetchO : FetchOracle) (cid : String) :
    ∀ (hosts : List String) (acc : List DownloadAttempt),
      (∀ h ∈ hosts, fetchBody? (fetchO (downloadUrl h cid)) = none) →
      providerLoopGo fetchO cid hosts acc =
        (acc ++ hosts.map (fun host => attemptOf (downloadUrl host cid)
          (fetchO (downloadUrl host cid))), none) := by
  intro hosts
  induction hosts with
  | nil => intro acc _; simp [providerLoopGo]
  | cons host rest ih =>
    intro acc hfail
    have h1 := hfail host (List.mem_cons_self _ _)
    have h2 : ∀ h ∈ rest, fetchBody? (fetchO (downloadUrl h cid)) = none :=
      fun h hm => hfail h (List.mem_cons_of_mem _ hm)
    rw [providerLoopGo, h1, ih (acc ++ [attemptOf (downloadUrl host cid)
      (fetchO (downloadUrl host cid))]) h2]
    simp

theorem providerLoopGo_until (fetchO : FetchOracle) (cid : String) (host : String)
    (post : List String) (st : Nat) (body : List Nat) (text : String)
    (hhit : fetchO (downloadUrl host cid) = .response st body text)
    (h2xx : 200 ≤ st ∧ st < 300) :
    ∀ (pre : List String) (acc : List DownloadAttempt),
      (∀ h ∈ pre, fetchBody? (fetchO (downloadUrl h cid)) = none) →
      providerLoopGo fetchO cid (pre ++ host :: post) acc =
        (acc ++ pre.map (fun h => attemptOf (downloadUrl h cid) (fetchO (downloadUrl h cid)))
             ++ [⟨downloadUrl host cid, some st, none⟩], some body) := by
  intro pre
  induction pre with
  | nil =>
    intro acc _
    have hb : fetchBody? (fetchO (downloadUrl host cid)) = some body := by
      rw [hhit]
      simp [fetchBody?, h2xx.1, h2xx.2]
    have ha : attemptOf (downloadUrl host cid) (fetchO (downloadUrl host cid)) =
        ⟨downloadUrl host cid, some st, none⟩ := by
      rw [hhit]
      simp [attemptOf, h2xx.1, h2xx.2]
    simp only [List.nil_append, providerLoopGo, hb, ha, List.map_nil, List.append_nil]
  | cons p rest ih =>
    intro acc hfail
    have h1 := hfail p (List.mem_cons_self _ _)
    have h2 : ∀ h ∈ rest, fetchBody? (fetchO (downloadUrl h cid)) = none :=
      fun h hm => hfail h (List.mem_cons_of_mem _ hm)
    rw [List.cons_append, providerLoopGo, h1,
      ih (acc ++ [attemptOf (downloadUrl p cid) (fetchO (downloadUrl p cid))]) h2]
    simp

theorem getLast?_map {α β : Type} (f : α → β) (l : List α) :
    (l.map f).getLast? = l.getLast?.map f := by
  induction l with
  | nil => rfl
  | cons a rest ih =>
    cases rest with
    | nil => rfl
    | cons b t =>
      simp only [List.map_cons, List.getLast?_cons_cons] at ih ⊢
      exact ih

theorem lastSeg_of_endsWith (f ext : String) (hnd : '.' ∉ ext.data)
    (h : strEndsWith (jsToLower f) ("." ++ ext) = true) :
    ((jsSplit '.' (jsToLower f)).getLast?).getD "" = ext ∧ f ≠ "" := by
  rw [strEndsWith_iff] at h
  obtain ⟨pre, hp⟩ := h
  have hdot : ("." ++ ext).data = '.' :: ext.data := by
    have h1 : ("." : String).data = ['.'] := rfl
    rw [String.data_append, h1]
    rfl
  rw [hdot] at hp
  constructor
  · unfold jsSplit
    rw [getLast?_map, hp, jsSplitChar_getLast '.' pre ext.data hnd]
    cases ext
    rfl
  · intro hf
    rw [hf] at hp
    have h0 : (jsToLower "").data = [] := rfl
    rw [h0] at hp
    exact absurd hp.symm (by simp)

theorem chooseCid_ne_empty (phs : List PotentialHexString) (poss : List PossibleHash)
    (cands : List String) (fid : String)
    (hposs : ∀ e ∈ poss, e.hash.length = 64) :
    chooseCid phs poss cands fid ≠ "" := by
  unfold chooseCid
  cases hs1 : strategy1 phs with
  | some v =>
    have hv := strategy1_value phs v hs1
    show v ≠ ""
    intro he
    rw [he] at hv
    simp at hv
  | none =>
    cases poss with
    | cons hd tl =>
      have h64 := hposs hd (List.mem_cons_self _ _)
      show hd.hash ≠ ""
      intro he
      rw [he] at h64
      simp at h64
    | nil =>
      cases hs3 : strategy3 cands with
      | some v =>
        have hv := strategy3_value cands v hs3
        show v ≠ ""
        intro he
        rw [he] at hv
        simp at hv
      | none =>
        show sha256Hex fid ≠ ""
        exact sha256Hex_ne_empty fid

theorem decodeFindFileValue_possibleHashes (resp : JsonVal) (d : DecodedFindFile)
    (h : decodeFindFileValue resp = .ok d) :
    ∀ e ∈ d.possibleHashes, e.hash.length = 64 := by
  unfold decodeFindFileValue at h
  split at h
  · next s =>
    split at h
    · exact absurd h (by simp)
    · simp only [Except.ok.injEq] at h
      subst h
      intro e he
      exact isHex64_length e.hash (possibleHashesOf_hash_hex _ e he)
  · exact absurd h (by simp)
  · exact absurd h (by simp)
  · exact absurd h (by simp)

/-! ## Claim theorems -/

/-- C1: the claim states that `decryptFileData` fails with `DecryptionFailed`
whenever it cannot authenticate the plaintext and never returns the input
ciphertext unchanged. The code contradicts this on every input: its body is
the placeholder the source itself labels
`[PLACEHOLDER] Returning encrypted data unchanged - decryption not yet
implemented`, so it always succeeds and always returns the ciphertext bytes
unchanged. -/
theorem c1_decryptFileData_identity (encryptedData : List Nat) (key : String)
    (metadata : FileMetadata) :
    decryptFileData encryptedData key metadata = .ok encryptedData := rfl

/-- C2: the claim states the raw route never answers 200 with ciphertext.
On the fixtures, the storage provider serves the ciphertext bytes
`[202, 254, 186, 190]` (first conjunct) and the route answers 200 with exactly
those bytes as the body (second conjunct), because the decryption stage is the
identity placeholder: the 200 body is the undecrypted provider payload. -/
theorem c2_route_200_with_ciphertext :
    fetch1 (downloadUrl primaryStorageHost zeros64) = .response 200 [202, 254, 186, 190] "" ∧
    rawRouteGET (some url0) rpc0 fetch1 =
      ⟨200, .bytes [202, 254, 186, 190], "image/png"⟩ :=
  ⟨rfl, rfl⟩

/-- C6: whenever the pipeline resolves successfully, the returned MIME type is
exactly `image/png`, because `fetchFileMetadata` hard-codes the placeholder
`mimeType: 'image/png'` and `getMimeType` prefers that hint over any
filename-based detection. -/
theorem c6_mimeType_always_png (rpc : RpcOracle) (fetchO : FetchOracle) (url : String)
    (f : JackalDecryptedFile) (h : fetchAndDecryptVaultFile rpc fetchO url = .ok f) :
    f.mimeType = "image/png" := by
  unfold fetchAndDecryptVaultFile at h
  split at h
  · exact absurd h (by simp)
  next parts hp =>
    split at h
    · exact absurd h (by simp)
    next metadata hm =>
      split at h
      · exact absurd h (by simp)
      next encryptedData hc =>
        split at h
        · exact absurd h (by simp)
        next decryptedData hd =>
          simp only [Except.ok.injEq] at h
          subst h
          exact getMimeType_of_png metadata metadata.filename
            (fetchFileMetadata_fields rpc _ _ _ metadata hm).1

/-- Witness for C6: a concrete successful resolution, on which the conclusion
is obtained from the theorem. -/
theorem c6_witness :
    fetchAndDecryptVaultFile rpc0 fetch1 url0 = .ok file0 ∧ file0.mimeType = "image/png" :=
  ⟨rfl, c6_mimeType_always_png rpc0 fetch1 url0 file0 rfl⟩

/-- C9 counterexample: the claim states that no two entries of a pooled
candidate collection share the same hash value. In the pipeline,
`decodeFindFileValue` pools the 32-byte-window scan without any
deduplication: on a FindFile response whose value decodes to 33 zero bytes,
`possibleHashes` holds two entries (offsets 0 and 1) with the identical hash
value `zeros64`. -/
theorem c9_counterexample :
    decodeFindFileValue ffRespZeros33 =
      .ok ⟨List.replicate 33 0, [], [⟨0, zeros64⟩, ⟨1, zeros64⟩]⟩ := rfl

/-- C9 amended: only the analyzer script deduplicates: its `uniqueCandidates`
filter keeps the first occurrence of each value, and its output never holds
two entries with the same hash value; the pipeline pools of
`decodeFindFileValue` are not deduplicated. -/
theorem c9_uniqueCandidates_value_nodup (l : List CidCandidate) :
    (uniqueCandidates l).Pairwise (fun a b => a.value ≠ b.value) := by
  unfold uniqueCandidates
  rw [List.pairwise_map]
  have h1 : (l.enum.map Prod.fst).Nodup := by
    rw [List.enum_map_fst]
    exact List.nodup_range _
  have base : l.enum.Pairwise (fun p q => p.1 ≠ q.1) := by
    have h2 : (l.enum.map Prod.fst).Pairwise (fun a b => a ≠ b) := h1
    rw [List.pairwise_map] at h2
    exact h2
  have filt : (l.enum.filter
      (fun p => l.findIdx? (fun c => c.value == p.2.value) == some p.1)).Pairwise
      (fun p q => p.1 ≠ q.1) :=
    base.sublist (List.filter_sublist l.enum)
  refine List.Pairwise.imp_of_mem ?_ filt
  intro p q hp hq hne hval
  apply hne
  have hp2 := (List.mem_filter.1 hp).2
  have hq2 := (List.mem_filter.1 hq).2
  rw [beq_iff_eq] at hp2 hq2
  have hfun : (fun c : CidCandidate => c.value == p.2.value) =
      (fun c : CidCandidate => c.value == q.2.value) := by
    funext c
    rw [hval]
  rw [hfun] at hp2
  exact Option.some.inj (hp2.symm.trans hq2)

/-- C3 counterexample: the claim states that structural-traversal candidates
precede binary-scan candidates in the tried order. On this concrete FindFile
response, the structural traversal yields the candidate `bb64` (under the
`cid` key), yet the selection picks `aa64`, the candidate found by the
length-prefixed byte scan — a scan-sourced candidate is tried although a
different structural-traversal candidate exists, and only one candidate is
tried at all. -/
theorem c3_counterexample :
    decodeFindFileValue ffRespC3 =
      .ok ⟨rawC3, potentialStringsOf rawC3, possibleHashesOf rawC3⟩ ∧
    collectHexCands ffRespC3 = ["cid = " ++ bb64] ∧
    potentialStringsOf rawC3 = [⟨0, 64, aa64⟩] ∧
    chooseCid (potentialStringsOf rawC3) (possibleHashesOf rawC3)
      (collectHexCands ffRespC3) "01K9YX" = aa64 ∧
    aa64 ≠ bb64 :=
  ⟨rfl, rfl, rfl, rfl, by decide⟩

/-- C3 amended: the selection priority of `fetchEncryptedChunks` is: first a
length-prefixed-scan candidate of value length 64 (regardless of any
structural candidates), then the first raw binary-scan window hash, then the
structural-traversal candidates, and the deterministic digest
`sha256(fileId)` last, only when the three strategies produce nothing. -/
theorem c3_amended_priority :
    (∀ (phs : List PotentialHexString) (poss : List PossibleHash)
       (cands : List String) (fid : String),
       (∃ e ∈ phs, e.value.length = 64) →
       ∃ e ∈ phs, e.value.length = 64 ∧ chooseCid phs poss cands fid = e.value) ∧
    (∀ (phs : List PotentialHexString) (poss : List PossibleHash)
       (cands : List String) (fid : String) (hd : PossibleHash) (rest : List PossibleHash),
       (∀ e ∈ phs, e.value.length ≠ 64) → poss = hd :: rest →
       chooseCid phs poss cands fid = hd.hash) ∧
    (∀ (phs : List PotentialHexString) (cands : List String) (fid v : String),
       (∀ e ∈ phs, e.value.length ≠ 64) → strategy3 cands = some v →
       chooseCid phs [] cands fid = v) ∧
    (∀ (phs : List PotentialHexString) (cands : List String) (fid : String),
       (∀ e ∈ phs, e.value.length ≠ 64) → strategy3 cands = none →
       chooseCid phs [] cands fid = sha256Hex fid) := by
  have hnone : ∀ (phs : List PotentialHexString),
      (∀ e ∈ phs, e.value.length ≠ 64) → strategy1 phs = none := by
    intro phs hne
    unfold strategy1
    rw [List.find?_eq_none.2 (fun x hx => by simpa using hne x hx)]
    rfl
  refine ⟨?_, ?_, ?_, ?_⟩
  · intro phs poss cands fid hex
    have hs : (phs.find? (fun h => h.value.length == 64)).isSome := by
      rw [List.find?_isSome]
      obtain ⟨e, he, hlen⟩ := hex
      exact ⟨e, he, by simp [hlen]⟩
    obtain ⟨e, hfind⟩ := Option.isSome_iff_exists.1 hs
    refine ⟨e, List.mem_of_find?_eq_some hfind, by simpa using List.find?_some hfind, ?_⟩
    unfold chooseCid strategy1
    rw [hfind]
    rfl
  · intro phs poss cands fid hd rest hne hposs
    unfold chooseCid
    rw [hnone phs hne, hposs]
    rfl
  · intro phs cands fid v hne hs3
    unfold chooseCid
    rw [hnone phs hne, hs3]
    rfl
  · intro phs cands fid hne hs3
    unfold chooseCid
    rw [hnone phs hne, hs3]
    rfl

/-- Witness for C3 amended: the raw-scan priority and the digest-last clause
at concrete inputs. -/
theorem c3_witness :
    chooseCid [] [⟨0, "ee"⟩] ["zz"] "fid0" = "ee" ∧
    chooseCid [] [] [] "fid0" = sha256Hex "fid0" :=
  ⟨c3_amended_priority.2.1 [] [⟨0, "ee"⟩] ["zz"] "fid0" ⟨0, "ee"⟩ [] (by simp) rfl,
   c3_amended_priority.2.2.2 [] [] "fid0" (by simp) rfl⟩

/-- C10: when every extraction strategy yields zero candidates, the selection
still resolves to exactly the SHA-256 digest of the UTF-8 bytes of the file
id, rendered as lowercase hex (first clause); for every decoded FindFile
response the resolution succeeds, so the `Could not determine CID` branch is
unreachable (second clause); and the digest candidate is a 64-character hex
string (third clause). -/
theorem c10_digest_fallback :
    (∀ (d : DecodedFindFile) (cands : List String) (fid : String),
       d.potentialHexStrings = [] → d.possibleHashes = [] → cands = [] →
       resolveCid d cands fid = .ok (sha256Hex fid)) ∧
    (∀ (resp : JsonVal) (d : DecodedFindFile) (fid : String),
       decodeFindFileValue resp = .ok d →
       ∃ cid, resolveCid d (collectHexCands resp) fid = .ok cid) ∧
    (∀ fid : String, (sha256Hex fid).length = 64) := by
  refine ⟨?_, ?_, fun fid => sha256Hex_length fid⟩
  · intro d cands fid h1 h2 h3
    unfold resolveCid
    rw [h1, h2, h3]
    have hc : chooseCid [] [] [] fid = sha256Hex fid := rfl
    rw [hc, if_neg (sha256Hex_ne_empty fid)]
  · intro resp d fid hdec
    have hne : chooseCid d.potentialHexStrings d.possibleHashes (collectHexCands resp) fid ≠ "" :=
      chooseCid_ne_empty _ _ _ _ (decodeFindFileValue_possibleHashes resp d hdec)
    refine ⟨chooseCid d.potentialHexStrings d.possibleHashes (collectHexCands resp) fid, ?_⟩
    unfold resolveCid
    rw [if_neg hne]

/-- Witness for C10: the empty-strategies clause at a concrete file id. -/
theorem c10_witness :
    resolveCid ⟨[], [], []⟩ [] "01K9YXQ9RYC2ZKXY30ZDBFAG5F" =
      .ok (sha256Hex "01K9YXQ9RYC2ZKXY30ZDBFAG5F") :=
  c10_digest_fallback.1 ⟨[], [], []⟩ [] "01K9YXQ9RYC2ZKXY30ZDBFAG5F" rfl rfl rfl

/-- C4: when every download of the chosen CID fails on every provider, the
retrieval fails, the thrown message embeds the complete ordered attempt log
(one record per provider, in trial order), and the log length equals the
number of tried CID candidates (the selection hands over exactly one) times
the number of providers. -/
theorem c4_retrieval_exhausted (fetchO : FetchOracle) (cid : String)
    (hfail : ∀ host ∈ allHosts, fetchBody? (fetchO (downloadUrl host cid)) = none) :
    retrieveOrFail fetchO cid = .error
      ("Failed to download from any storage provider. Attempts: " ++
        renderAttempts (allHosts.map (fun host => attemptOf (downloadUrl host cid)
          (fetchO (downloadUrl host cid))))) ∧
    (allHosts.map (fun host => attemptOf (downloadUrl host cid)
      (fetchO (downloadUrl host cid)))).length = [cid].length * allHosts.length := by
  have hloop := providerLoopGo_all_fail fetchO cid allHosts [] hfail
  rw [List.nil_append] at hloop
  constructor
  · unfold retrieveOrFail providerLoop
    rw [hloop]
  · simp

/-- Witness for C4: every provider rejects, the log has six entries, one per
provider, and six equals one candidate times six providers. -/
theorem c4_witness :
    retrieveOrFail fetchFail zeros64 = .error
      ("Failed to download from any storage provider. Attempts: " ++
        renderAttempts (allHosts.map (fun host => attemptOf (downloadUrl host zeros64)
          (fetchFail (downloadUrl host zeros64))))) ∧
    (allHosts.map (fun host => attemptOf (downloadUrl host zeros64)
      (fetchFail (downloadUrl host zeros64)))).length = [zeros64].length * allHosts.length :=
  c4_retrieval_exhausted fetchFail zeros64 (fun _ _ => rfl)

/-- C5: when the providers before the Nth all fail and the Nth answers 2xx
with a non-empty body, the loop returns that body with exactly N log entries,
in network-call order, and no later provider is contacted (the log carries no
entry beyond the Nth). Here N is `pre.length + 1` for the provider split
`allHosts = pre ++ host :: post`. -/
theorem c5_short_circuit (fetchO : FetchOracle) (cid : String) (pre post : List String)
    (host : String) (st : Nat) (body : List Nat) (text : String)
    (hsplit : allHosts = pre ++ host :: post)
    (hpre : ∀ h ∈ pre, fetchBody? (fetchO (downloadUrl h cid)) = none)
    (hhit : fetchO (downloadUrl host cid) = .response st body text)
    (h2xx : 200 ≤ st ∧ st < 300) (hbody : body ≠ []) :
    providerLoop fetchO cid =
      (pre.map (fun h => attemptOf (downloadUrl h cid) (fetchO (downloadUrl h cid)))
        ++ [(⟨downloadUrl host cid, some st, none⟩ : DownloadAttempt)], some body) ∧
    (pre.map (fun h => attemptOf (downloadUrl h cid) (fetchO (downloadUrl h cid)))
      ++ [(⟨downloadUrl host cid, some st, none⟩ : DownloadAttempt)]).length = pre.length + 1 := by
  constructor
  · unfold providerLoop
    rw [hsplit]
    have hgo := providerLoopGo_until fetchO cid host post st body text hhit h2xx pre [] hpre
    rw [List.nil_append] at hgo
    exact hgo
  · simp

/-- Witness for C5: the first provider rejects, the second serves a one-byte
body; the loop returns it after exactly two attempts. -/
theorem c5_witness :
    providerLoop fetchSecond zeros64 =
      ([⟨downloadUrl primaryStorageHost zeros64, none, some "connect ECONNREFUSED"⟩,
        ⟨downloadUrl "pod-04.jackalstorage.online" zeros64, some 200, none⟩], some [7]) ∧
    ([⟨downloadUrl primaryStorageHost zeros64, none, some "connect ECONNREFUSED"⟩,
      ⟨downloadUrl "pod-04.jackalstorage.online" zeros64, some 200, none⟩] :
        List DownloadAttempt).length = 2 := by
  have h := c5_short_circuit fetchSecond zeros64 [primaryStorageHost]
    ["pod-01.jackalstorage.online", "m4.jkldrive.com", "jackal-storage1.badgerbite.io",
     "jsn4.pegasusdev.xyz"] "pod-04.jackalstorage.online" 200 [7] "" rfl
    (fun h hm => by
      rw [List.mem_singleton] at hm
      subst hm
      rfl)
    rfl (And.intro (by omega) (by omega)) (by simp)
  exact ⟨h.1, rfl⟩

/-- C8 counterexample: the claim states the resolver returns the metadata
MIME hint when present and defaults for filenames without a mapped extension.
Two boundary inputs contradict it: a present-but-empty hint is ignored (the
JS truthiness check treats it as absent, so the extension mapping answers
`image/jpeg`, not the hint), and the dot-free filename `svg` (which has no
extension) is mapped to `image/svg+xml` rather than the default, because
`split('.').pop()` of a dot-free name is the whole name. -/
theorem c8_counterexample :
    getMimeType ⟨some "", none, none, .other⟩ (some "x.jpg") = "image/jpeg" ∧
    "image/jpeg" ≠ "" ∧
    getMimeType ⟨none, none, none, .other⟩ (some "svg") = "image/svg+xml" ∧
    "image/svg+xml" ≠ "image/png" :=
  ⟨rfl, by decide, rfl, by decide⟩

/-- C8 amended: the resolver is total and returns the metadata MIME hint when
present and non-empty; otherwise it maps the last `.`-separated segment of the
lowercased filename through the fixed table (so extensions are matched
case-insensitively, and a dot-free filename is looked up as a whole), and
returns `image/png` when that segment is not in the table; the three spec
examples hold. -/
theorem c8_amended_resolution :
    (∀ (md : FileMetadata) (fn : Option String) (m : String),
       md.mimeType = some m → m ≠ "" → getMimeType md fn = m) ∧
    (∀ (md : FileMetadata) (f : String) (p : String × String),
       (md.mimeType = none ∨ md.mimeType = some "") → p ∈ extMap →
       strEndsWith (jsToLower f) ("." ++ p.1) = true →
       getMimeType md (some f) = p.2) ∧
    (∀ (md : FileMetadata) (f : String),
       (md.mimeType = none ∨ md.mimeType = some "") →
       ((jsSplit '.' (jsToLower f)).getLast?).getD "" ∉ extMap.map Prod.fst →
       getMimeType md (some f) = "image/png") ∧
    getMimeType ⟨none, none, none, .other⟩ (some "photo.PNG") = "image/png" ∧
    getMimeType ⟨none, none, none, .other⟩ (some "doc.xyz") = "image/png" ∧
    getMimeType ⟨some "application/pdf", none, none, .other⟩ (some "x.png") =
      "application/pdf" := by
  refine ⟨?_, ?_, ?_, rfl, rfl, rfl⟩
  · intro md fn m hm hne
    unfold getMimeType
    rw [hm]
    simp [hne]
  · intro md f p hmd hp hends
    have hcase : p = ("jpg", "image/jpeg") ∨ p = ("jpeg", "image/jpeg") ∨
        p = ("png", "image/png") ∨ p = ("gif", "image/gif") ∨
        p = ("webp", "image/webp") ∨ p = ("svg", "image/svg+xml") := by
      simpa [extMap] using hp
    rcases hcase with rfl | rfl | rfl | rfl | rfl | rfl <;>
      obtain ⟨hext, hf⟩ := lastSeg_of_endsWith f _ (by decide) hends <;>
      unfold getMimeType <;>
      rcases hmd with h | h <;>
      rw [h] <;>
      simp [getMimeType.getMimeTypeFromFilename, hf, hext]
  · intro md f hmd hnk
    have hlist : ¬ (((jsSplit '.' (jsToLower f)).getLast?).getD "" = "jpg" ∨
        ((jsSplit '.' (jsToLower f)).getLast?).getD "" = "jpeg" ∨
        ((jsSplit '.' (jsToLower f)).getLast?).getD "" = "png" ∨
        ((jsSplit '.' (jsToLower f)).getLast?).getD "" = "gif" ∨
        ((jsSplit '.' (jsToLower f)).getLast?).getD "" = "webp" ∨
        ((jsSplit '.' (jsToLower f)).getLast?).getD "" = "svg") := by
      simpa [extMap] using hnk
    push_neg at hlist
    obtain ⟨h1, h2, h3, h4, h5, h6⟩ := hlist
    unfold getMimeType
    rcases hmd with h | h <;> rw [h] <;>
    · by_cases hf : f = ""
      · simp [getMimeType.getMimeTypeFromFilename, hf]
      · simp [getMimeType.getMimeTypeFromFilename, hf, h1, h2, h3, h4, h5, h6]

/-- Witness for C8 amended: a non-empty hint wins, a case-insensitive
extension maps, and an unmapped extension defaults. -/
theorem c8_witness :
    getMimeType ⟨some "application/json", none, none, .other⟩ none = "application/json" ∧
    getMimeType ⟨none, none, none, .other⟩ (some "a.WEBP") = "image/webp" ∧
    getMimeType ⟨none, none, none, .other⟩ (some "notes.txt") = "image/png" :=
  ⟨c8_amended_resolution.1 ⟨some "application/json", none, none, .other⟩ none
     "application/json" rfl (by decide),
   c8_amended_resolution.2.1 ⟨none, none, none, .other⟩ "a.WEBP" ("webp", "image/webp")
     (Or.inl rfl) (by decide) (by decide),
   c8_amended_resolution.2.2.1 ⟨none, none, none, .other⟩ "notes.txt" (Or.inl rfl)
     (by decide)⟩

/-- C7 counterexample: the claim states parsing fails whenever the second
slash-separated path segment is not the literal `v`. The jackal-utils variant
of `parseVaultUrl` (one of the two cited parsers) never checks that segment:
on the path `/a/b/c`, whose second segment is `a`, it succeeds — returning
the shifted fields `b` and `c` besides. -/
theorem c7_counterexample :
    parseVaultUrlUtilsCore ⟨"/a/b/c", some "K"⟩ = .ok ⟨"b", "c", "K"⟩ ∧
    (jsSplit '/' "/a/b/c").get? 1 = some "a" :=
  ⟨rfl, rfl⟩

/-- C7 amended: the claimed contract holds of the jackalVault.ts
`parseVaultUrl` (the parser the pipeline uses): a path `/v/{a}/{b}` with
non-empty slash-free segments and a non-empty `k` parameter parses to exactly
that triple, and parsing fails with the wrapped `Failed to parse vault URL:`
error whenever the path has fewer than four slash-separated segments, the
second segment is not `v`, either field is empty, or the `k` parameter is
missing or empty. The jackal-utils variant checks only non-emptiness, not the
`v` segment. -/
theorem c7_amended_parse :
    (∀ a b c : String, a ≠ "" → b ≠ "" → c ≠ "" → '/' ∉ a.data → '/' ∉ b.data →
       parseVaultUrlCore ⟨"/v/" ++ a ++ "/" ++ b, some c⟩ = .ok ⟨a, b, c⟩) ∧
    (∀ u : UrlView,
       ((jsSplit '/' u.pathname).length < 4 ∨ (jsSplit '/' u.pathname).get? 1 ≠ some "v" ∨
        ((jsSplit '/' u.pathname).get? 2).getD "" = "" ∨
        ((jsSplit '/' u.pathname).get? 3).getD "" = "" ∨
        u.kParam = none ∨ u.kParam = some "") →
       ∃ m, parseVaultUrlCore u = .error ("Failed to parse vault URL: " ++ m)) := by
  constructor
  · intro a b c ha hb hc hsa hsb
    have h3 : ("/v/" : String).data = ['/', 'v', '/'] := rfl
    have h1 : ("/" : String).data = ['/'] := rfl
    have hd : ("/v/" ++ a ++ "/" ++ b).data =
        [] ++ '/' :: (['v'] ++ '/' :: (a.data ++ '/' :: b.data)) := by
      simp [String.data_append, h3, h1]
    have hsplit : jsSplit '/' ("/v/" ++ a ++ "/" ++ b) = ["", "v", a, b] := by
      unfold jsSplit
      rw [hd, jsSplitChar_append '/' [] _ (by simp),
          jsSplitChar_append '/' ['v'] _ (by simp),
          jsSplitChar_append '/' a.data _ hsa,
          jsSplitChar_not_mem '/' b.data hsb]
      rfl
    unfold parseVaultUrlCore
    dsimp only
    rw [hsplit]
    simp [ha, hb, hc]
  · intro u hcond
    by_cases h1 : (jsSplit '/' u.pathname).length < 4 ∨
        (jsSplit '/' u.pathname).get? 1 ≠ some "v"
    · refine ⟨"Invalid vault URL format", ?_⟩
      unfold parseVaultUrlCore
      rw [if_pos h1]
      rfl
    · push_neg at h1
      obtain ⟨hlen, hv⟩ := h1
      have hfield : ((jsSplit '/' u.pathname).get? 2).getD "" = "" ∨
          ((jsSplit '/' u.pathname).get? 3).getD "" = "" ∨ u.kParam.getD "" = "" := by
        rcases hcond with hc | hc | hc | hc | hc | hc
        · exact absurd hc (by omega)
        · exact absurd hv hc
        · exact Or.inl hc
        · exact Or.inr (Or.inl hc)
        · exact Or.inr (Or.inr (by rw [hc]; rfl))
        · exact Or.inr (Or.inr (by rw [hc]; rfl))
      refine ⟨"Missing required URL components", ?_⟩
      unfold parseVaultUrlCore
      rw [if_neg (by push_neg; exact ⟨hlen, hv⟩), if_pos hfield]
      rfl

/-- Witness for C7 amended: a well-formed reference parses to its triple, and
a path whose second segment is not `v` is rejected. -/
theorem c7_witness :
    parseVaultUrlCore ⟨"/v/jkl1owner/01FILE", some "KEY1"⟩ =
      .ok ⟨"jkl1owner", "01FILE", "KEY1"⟩ ∧
    (∃ m, parseVaultUrlCore ⟨"/x/y/z", some "K"⟩ =
      .error ("Failed to parse vault URL: " ++ m)) :=
  ⟨by
    have h := c7_amended_parse.1 "jkl1owner" "01FILE" "KEY1"
      (by decide) (by decide) (by decide) (by decide) (by decide)
    exact h,
   c7_amended_parse.2 ⟨"/x/y/z", some "K"⟩ (Or.inr (Or.inl (by decide)))⟩

end Shar3
